import Mathlib

/-!
Shallow embedding of the emotion-detection video pipeline
(backend/app/services/analyzer.py, video_processor.py, uploader.py).
External capabilities (cv2 decode/encode, the MTCNN detector, the Keras
model, ffmpeg, Google Cloud Storage) are modelled as explicit inputs:
booleans for success conditions, Except values for calls that may raise,
and abstract functions for the opaque numeric kernels.
-/

namespace EmotionDetection

/-! ### Python numeric helpers -/

/-- Python int() applied to a rational: truncation toward zero. -/
def pyInt (q : ℚ) : ℤ := if 0 ≤ q then ⌊q⌋ else ⌈q⌉

/-- Python round-half-to-even on a rational, to an integer. -/
def roundHalfEven (q : ℚ) : ℤ :=
  if Int.fract q < 1/2 then ⌊q⌋
  else if 1/2 < Int.fract q then ⌊q⌋ + 1
  else if ⌊q⌋ % 2 = 0 then ⌊q⌋ else ⌊q⌋ + 1

/-- Python round(q, 2): round to two decimal places. -/
def round2 (q : ℚ) : ℚ := (roundHalfEven (q * 100) : ℚ) / 100

/-- Python "x or d" on the frame rate read from the container: 0 is falsy. -/
def pyOr (v d : ℚ) : ℚ := if v = 0 then d else v

/-! ### analyzer.py -/

/-- CLASS_NAMES in analyzer.py: the fixed 7-class emotion label set. -/
def CLASS_NAMES : List String :=
  ["angry", "disgust", "fear", "happy", "neutral", "sad", "surprise"]

/-- One raw detection returned by the external MTCNN detector: the optional
"box" entry (x, y, w, h) and the optional "confidence" entry. -/
structure RawDet where
  box : Option (ℤ × ℤ × ℤ × ℤ)
  confidence : Option ℚ

/-- A face bounding box surfaced by detect_faces. -/
structure BBox where
  x : ℤ
  y : ℤ
  w : ℤ
  h : ℤ

/-- The per-detection body of the loop in detect_faces: box-key check,
confidence threshold, origin clamp, minimum-size filter. -/
def processDet (det : RawDet) : Option BBox :=
  match det.box with
  | none => none
  | some (x, y, w, h) =>
    if (match det.confidence with
        | some c => decide (c < 85/100)
        | none => false) then none
    else if max 1 w < 30 ∨ max 1 h < 30 then none
    else some ⟨max 0 x, max 0 y, max 1 w, max 1 h⟩

/-- detect_faces in analyzer.py: the detector call is external and may
raise (caught, degrading to zero faces); survivors pass processDet. -/
def detect_faces (dres : Except Unit (List RawDet)) : List BBox :=
  match dres with
  | .error _ => []
  | .ok dets => dets.filterMap processDet

/-- tf.nn.softmax modelled with an abstract positive exponential expf:
each score is mapped to expf score / sum of all expf scores. -/
def softmax (expf : ℚ → ℚ) (xs : List ℚ) : List ℚ :=
  xs.map (fun x => expf x / (xs.map expf).sum)

/-- Helper for np.argmax: fold carrying the best index and value so far;
a later element replaces the best only when strictly greater. -/
def argmaxAux : List ℚ → ℕ → ℕ → ℚ → ℕ
  | [], _, bi, _ => bi
  | x :: rest, i, bi, bv =>
    if bv < x then argmaxAux rest (i + 1) i x
    else argmaxAux rest (i + 1) bi bv

/-- np.argmax on a list of rationals: first index attaining the maximum. -/
def argmaxIdx : List ℚ → ℕ
  | [] => 0
  | x :: rest => argmaxAux rest 1 0 x

/-- One element of the "results" list built by analyze_bytes. -/
structure FaceResult where
  id : ℕ
  bbox : List ℤ
  emotion : String
  confidence : ℚ
  all_probs : List (String × ℚ)

/-- The dictionary returned by analyze_bytes. -/
structure AnalyzeOut where
  num_faces : ℕ
  results : List FaceResult

/-- The per-face body of the loop in analyze_bytes: empty-crop guard,
softmax over the external model's scores, argmax label and confidence,
and the all_probs dictionary over CLASS_NAMES. -/
def faceResultOf (expf : ℚ → ℚ) (W H : ℤ) (predict : ℕ → List ℚ)
    (i : ℕ) (b : BBox) : Option FaceResult :=
  if b.x < W ∧ b.y < H then
    some { id := i + 1
           bbox := [b.x, b.y, b.w, b.h]
           emotion := CLASS_NAMES.getD (argmaxIdx (softmax expf (predict i))) ""
           confidence := (softmax expf (predict i)).getD
             (argmaxIdx (softmax expf (predict i))) 0
           all_probs := (List.range CLASS_NAMES.length).map
             (fun j => (CLASS_NAMES.getD j "",
               (softmax expf (predict i)).getD j 0)) }
  else none

/-- analyze_bytes in analyzer.py. The decoded image's width and height
give the empty-crop condition (a clamped box with origin at or beyond an
image edge yields roi.size == 0); predict is the external model keyed by
face position in the surviving-box list. -/
def analyze_bytes (expf : ℚ → ℚ) (W H : ℤ)
    (dres : Except Unit (List RawDet)) (predict : ℕ → List ℚ) : AnalyzeOut :=
  let bboxes := detect_faces dres
  if bboxes.isEmpty then ⟨0, []⟩
  else
    let results := bboxes.enum.filterMap
      (fun p => faceResultOf expf W H predict p.1 p.2)
    ⟨results.length, results⟩

/-! ### video_processor.py: the frame loop -/

/-- One detection dictionary as consumed by process_video: the "bbox" (or
"box") entry, the emotion label and the confidence. -/
structure Det where
  bbox : Option (List ℤ)
  emotion : String
  confidence : ℚ

/-- The drawing loops skip a detection whose bbox entry is missing, falsy
(empty) or not of length 4; only surviving detections are drawn and (on
analyzed frames) counted. -/
def validBbox (d : Det) : Bool :=
  match d.bbox with
  | some l => l.length = 4
  | none => false

/-- The keys of emotion_counts in process_video. -/
def emotionLabels : List String :=
  ["angry", "disgust", "fear", "happy", "neutral", "sad", "surprise"]

/-- emotion_counts initialised to zero for every label. -/
def initCounts : List (String × ℕ) := emotionLabels.map (fun e => (e, 0))

/-- The counter updates of one analyzed frame: one increment per detection
with a valid bbox whose emotion is among the counter keys. -/
def incrCounts (cs : List (String × ℕ)) (dets : List Det) : List (String × ℕ) :=
  dets.foldl
    (fun cs d =>
      if validBbox d then
        cs.map (fun kv => if kv.1 = d.emotion then (kv.1, kv.2 + 1) else kv)
      else cs)
    cs

/-- The external events of one loop iteration that read a frame:
whether the frame decoded with a 3-channel shape, whether cv2.imencode
succeeded (only consulted on analyzed frames), and the outcome of
analyze_bytes (the "results" list, or a raised exception). -/
structure FrameInput where
  validShape : Bool
  encodeOk : Bool
  analysis : Except Unit (List Det)

/-- The mutable state of the frame loop in process_video. Each written
entry records the input index of the frame and the detection set drawn
onto it (empty list: written unannotated). -/
structure LoopState where
  processedFrames : ℕ
  analyzedFrames : ℕ
  lastDetections : List Det
  emotionCounts : List (String × ℕ)
  written : List (ℕ × List Det)

/-- Initial loop state of one run. -/
def initState : LoopState := ⟨0, 0, [], initCounts, []⟩

/-- One iteration of the while loop in process_video for the frame at
input index i (given cap.read returned the frame), with sampling interval
k = frame_interval. Mirrors the source order: invalid shape skips the
frame entirely; an off-interval frame is annotated with last_detections
and written; an on-interval frame increments analyzed_frames first, is
dropped when imencode fails, is written unannotated when analyze_bytes
raises, and otherwise is written with its fresh detections, which update
last_detections and the counters only when non-empty. -/
def step (k : ℕ) (s : LoopState) (i : ℕ) (f : FrameInput) : LoopState :=
  if f.validShape = false then s
  else
    let pf := s.processedFrames + 1
    if pf % k ≠ 0 then
      { s with processedFrames := pf
               written := s.written ++ [(i, s.lastDetections)] }
    else
      let af := s.analyzedFrames + 1
      if f.encodeOk = false then
        { s with processedFrames := pf, analyzedFrames := af }
      else
        match f.analysis with
        | .error _ =>
          { s with processedFrames := pf, analyzedFrames := af
                   written := s.written ++ [(i, [])] }
        | .ok dets =>
          if dets.isEmpty then
            { s with processedFrames := pf, analyzedFrames := af
                     written := s.written ++ [(i, [])] }
          else
            { s with processedFrames := pf, analyzedFrames := af
                     lastDetections := dets
                     emotionCounts := incrCounts s.emotionCounts dets
                     written := s.written ++ [(i, dets)] }

/-- The frame loop from state s, with i the input index of the next frame. -/
def runFrom (k : ℕ) (s : LoopState) (i : ℕ) : List FrameInput → LoopState
  | [] => s
  | f :: rest => runFrom k (step k s i f) (i + 1) rest

/-- The whole frame loop of one run. -/
def processFrames (k : ℕ) (inputs : List FrameInput) : LoopState :=
  runFrom k initState 0 inputs

/-- frame_interval = int(fps * 2) in process_video. -/
def frameInterval (fps : ℚ) : ℕ := (pyInt (fps * 2)).toNat

/-- Modelled from the spec: the sampling interval the specification
prescribes, max(1, round(frame_rate × target_seconds)) with
target_seconds = 2. Stated for comparison with frameInterval. -/
def frameIntervalSpec (fps : ℚ) : ℕ := max 1 (round (fps * 2)).toNat

/-! ### video_processor.py and uploader.py: post-processing -/

/-- Local file paths as handled by the post-processing tail. The code
only derives new path names (suffix rewriting via str.replace), compares
paths and deletes by path, never inspecting characters, so paths are
embedded as an abstract path datatype: withAudio p is
p.replace(".mp4", "_with_audio.mp4") and compressed p is
p.replace(".mp4", "_compressed.mp4"). -/
inductive MediaPath where
  | source
  | output
  | withAudio (p : MediaPath)
  | compressed (p : MediaPath)
deriving DecidableEq

/-- merge_audio in video_processor.py. originalExists and processedExists
model the os.path.exists checks; ffmpeg models the subprocess call as a
raised exception or a return code. -/
def merge_audio (originalExists processedExists : Bool)
    (ffmpeg : Except Unit ℤ)
    (originalPath processedPath : MediaPath) : MediaPath :=
  if originalExists = false then processedPath
  else if processedExists = false then processedPath
  else
    match ffmpeg with
    | .error _ => processedPath
    | .ok rc =>
      if rc ≠ 0 then processedPath else MediaPath.withAudio processedPath

/-- compress_video in uploader.py: missing input falls back to the output
argument; a raised exception or a non-zero exit falls back to the input
argument; success yields the derived compressed path. -/
def compress_video (inputExists : Bool) (ffmpeg : Except Unit ℤ)
    (inputPath outputPath : MediaPath) : MediaPath :=
  if inputExists = false then outputPath
  else
    match ffmpeg with
    | .error _ => inputPath
    | .ok rc =>
      if rc ≠ 0 then inputPath else MediaPath.compressed outputPath

/-- External events of the post-processing tail of process_video. -/
structure PostInputs where
  mergeOriginalExists : Bool
  mergeProcessedExists : Bool
  mergeFfmpeg : Except Unit ℤ
  compressInputExists : Bool
  compressFfmpeg : Except Unit ℤ
  upload : Except Unit String

/-- The dictionary returned by process_video. -/
structure RunResult where
  summary : List (String × ℚ)
  frames_analyzed : ℕ
  duration_sec : ℚ
  public_url : Option String

/-- total = sum(emotion_counts.values()) or 1. -/
def pyTotal (counts : List (String × ℕ)) : ℕ :=
  let s := (counts.map Prod.snd).sum
  if s = 0 then 1 else s

/-- The summary dictionary: each counter as a percentage of the total,
rounded to two decimals. -/
def summaryOf (counts : List (String × ℕ)) : List (String × ℚ) :=
  counts.map (fun kv => (kv.1, round2 ((kv.2 : ℚ) / (pyTotal counts : ℚ) * 100)))

/-- The fatal exceptions process_video can raise: FileNotFoundError for a
missing source path, the generic exception for a container that will not
open, and the ZeroDivisionError raised by processed_frames % 0 when
int(fps * 2) = 0 and a valid frame reaches the modulus. -/
inductive FatalError where
  | fileNotFound
  | cannotOpen
  | zeroDivision
deriving DecidableEq

/-- The external events of one whole run. -/
structure RunInputs where
  fileExists : Bool
  capOpens : Bool
  fps : ℚ
  frames : List FrameInput
  post : PostInputs
  elapsed : ℚ

/-- process_video in video_processor.py, end to end. Returns the run
result together with the list of local paths deleted after a successful
upload (the code deletes output_with_audio, the merge_audio result);
raising is modelled by the error branch. The fps read from the container
falls back to 25 when it reports zero; a computed interval of zero plus
at least one valid frame models the uncaught ZeroDivisionError of
processed_frames % 0. The compress_video result feeds only the upload,
whose outcome is already an explicit input, so it does not appear in the
returned record. -/
def process_video (videoPath outputPath : MediaPath) (ri : RunInputs) :
    Except FatalError (RunResult × List MediaPath) :=
  if ri.fileExists = false then .error .fileNotFound
  else if ri.capOpens = false then .error .cannotOpen
  else if frameInterval (pyOr ri.fps 25) = 0
      ∧ ri.frames.any (fun f => f.validShape) then .error .zeroDivision
  else
    match ri.post.upload with
    | .ok url =>
      .ok (⟨summaryOf (processFrames (frameInterval (pyOr ri.fps 25))
              ri.frames).emotionCounts,
            (processFrames (frameInterval (pyOr ri.fps 25))
              ri.frames).analyzedFrames,
            round2 ri.elapsed, some url⟩,
           [merge_audio ri.post.mergeOriginalExists
              ri.post.mergeProcessedExists ri.post.mergeFfmpeg
              videoPath outputPath])
    | .error _ =>
      .ok (⟨summaryOf (processFrames (frameInterval (pyOr ri.fps 25))
              ri.frames).emotionCounts,
            (processFrames (frameInterval (pyOr ri.fps 25))
              ri.frames).analyzedFrames,
            round2 ri.elapsed, none⟩, [])

/-! ### Case lemmas for one loop iteration -/

lemma step_invalid (k : ℕ) (s : LoopState) (i : ℕ) (f : FrameInput)
    (h : f.validShape = false) : step k s i f = s := by
  simp [step, h]

lemma step_skip (k : ℕ) (s : LoopState) (i : ℕ) (f : FrameInput)
    (hv : f.validShape = true) (h : (s.processedFrames + 1) % k ≠ 0) :
    step k s i f =
      { s with processedFrames := s.processedFrames + 1
               written := s.written ++ [(i, s.lastDetections)] } := by
  simp [step, hv, h]

lemma step_encodeFail (k : ℕ) (s : LoopState) (i : ℕ) (f : FrameInput)
    (hv : f.validShape = true) (h : (s.processedFrames + 1) % k = 0)
    (he : f.encodeOk = false) :
    step k s i f =
      { s with processedFrames := s.processedFrames + 1
               analyzedFrames := s.analyzedFrames + 1 } := by
  simp [step, hv, h, he]

lemma step_analyzeError (k : ℕ) (s : LoopState) (i : ℕ) (f : FrameInput)
    (hv : f.validShape = true) (h : (s.processedFrames + 1) % k = 0)
    (he : f.encodeOk = true) (ha : f.analysis = Except.error ()) :
    step k s i f =
      { s with processedFrames := s.processedFrames + 1
               analyzedFrames := s.analyzedFrames + 1
               written := s.written ++ [(i, ([] : List Det))] } := by
  simp [step, hv, h, he, ha]

lemma step_analyzeEmpty (k : ℕ) (s : LoopState) (i : ℕ) (f : FrameInput)
    (hv : f.validShape = true) (h : (s.processedFrames + 1) % k = 0)
    (he : f.encodeOk = true) (ha : f.analysis = Except.ok ([] : List Det)) :
    step k s i f =
      { s with processedFrames := s.processedFrames + 1
               analyzedFrames := s.analyzedFrames + 1
               written := s.written ++ [(i, ([] : List Det))] } := by
  simp [step, hv, h, he, ha]

lemma step_analyzeOk (k : ℕ) (s : LoopState) (i : ℕ) (f : FrameInput)
    (dets : List Det) (hv : f.validShape = true)
    (h : (s.processedFrames + 1) % k = 0) (he : f.encodeOk = true)
    (ha : f.analysis = Except.ok dets) (hne : dets ≠ []) :
    step k s i f =
      { s with processedFrames := s.processedFrames + 1
               analyzedFrames := s.analyzedFrames + 1
               lastDetections := dets
               emotionCounts := incrCounts s.emotionCounts dets
               written := s.written ++ [(i, dets)] } := by
  simp [step, hv, h, he, ha, List.isEmpty_iff, hne]

lemma step_analyzed_of_hit (k : ℕ) (s : LoopState) (i : ℕ) (f : FrameInput)
    (hv : f.validShape = true) (h : (s.processedFrames + 1) % k = 0) :
    (step k s i f).analyzedFrames = s.analyzedFrames + 1 := by
  cases he : f.encodeOk with
  | false => rw [step_encodeFail k s i f hv h he]
  | true =>
    cases ha : f.analysis with
    | error e =>
      cases e
      rw [step_analyzeError k s i f hv h he ha]
    | ok dets =>
      by_cases hne : dets = []
      · rw [step_analyzeEmpty k s i f hv h he (hne ▸ ha)]
      · rw [step_analyzeOk k s i f dets hv h he ha hne]

/-! ### C1: sampling interval and analysis schedule -/

/-- C1 (amended): for every frame rate ≥ 1 the sampling interval used by
the code equals ⌊frame_rate × 2⌋ (Python int truncation, not rounding),
which is automatically ≥ 1; a valid frame is analyzed (analyzed_frames
increments) exactly when its 1-based processed-frame counter is a
multiple of that interval, and every other valid frame is written with
the last stored detection set verbatim, leaving the analysis counter and
the cache unchanged. -/
theorem sampling_interval_and_schedule (fps : ℚ) (hfps : 1 ≤ fps)
    (s : LoopState) (i : ℕ) (f : FrameInput) (hv : f.validShape = true) :
    frameInterval fps = (⌊fps * 2⌋).toNat
  ∧ 1 ≤ frameInterval fps
  ∧ ((s.processedFrames + 1) % frameInterval fps = 0 →
      (step (frameInterval fps) s i f).analyzedFrames = s.analyzedFrames + 1)
  ∧ ((s.processedFrames + 1) % frameInterval fps ≠ 0 →
      (step (frameInterval fps) s i f).analyzedFrames = s.analyzedFrames
    ∧ (step (frameInterval fps) s i f).written
        = s.written ++ [(i, s.lastDetections)]
    ∧ (step (frameInterval fps) s i f).lastDetections = s.lastDetections) := by
  have hq : (0 : ℚ) ≤ fps * 2 := by linarith
  have hfloor : frameInterval fps = (⌊fps * 2⌋).toNat := by
    unfold frameInterval pyInt
    rw [if_pos hq]
  refine ⟨hfloor, ?_, ?_, ?_⟩
  · have h2 : (2 : ℤ) ≤ ⌊fps * 2⌋ := by
      rw [Int.le_floor]
      push_cast
      linarith
    rw [hfloor]
    omega
  · intro h
    exact step_analyzed_of_hit _ s i f hv h
  · intro h
    rw [step_skip _ s i f hv h]
    exact ⟨rfl, rfl, rfl⟩

lemma frameInterval_concrete (fps : ℚ) (n : ℤ) (h0 : 0 ≤ fps * 2)
    (h : ⌊fps * 2⌋ = n) : frameInterval fps = n.toNat := by
  unfold frameInterval pyInt
  rw [if_pos h0, h]

/-- C1 witness: at frame rate 25 the first frame (counter 1, interval 50)
is a skipped frame and does not increment the analysis counter. -/
theorem sampling_schedule_witness :
    (step (frameInterval 25) initState 0
        ⟨true, true, Except.ok []⟩).analyzedFrames
      = initState.analyzedFrames := by
  have h50 : frameInterval 25 = 50 :=
    frameInterval_concrete 25 50 (by norm_num) (by norm_num)
  exact ((sampling_interval_and_schedule 25 (by norm_num) initState 0
      ⟨true, true, Except.ok []⟩ rfl).2.2.2 (by rw [h50]; decide)).1

/-- C1 counterexample: at the widely reported frame rate 29.97 the code's
interval int(29.97 × 2) = 59 differs from the claimed
max(1, round(29.97 × 2)) = 60. -/
theorem sampling_interval_mismatch :
    frameInterval (2997/100) = 59 ∧ frameIntervalSpec (2997/100) = 60
  ∧ frameInterval (2997/100) ≠ frameIntervalSpec (2997/100) := by
  have h1 : frameInterval (2997/100) = 59 :=
    frameInterval_concrete (2997/100) 59 (by norm_num)
      (by rw [show (2997/100 : ℚ) * 2 = 5994/100 by norm_num]; norm_num)
  have h2 : frameIntervalSpec (2997/100) = 60 := by
    have hf : ⌊(6044/100 : ℚ)⌋ = 60 := by norm_num
    unfold frameIntervalSpec
    rw [round_eq,
      show (2997/100 : ℚ) * 2 + 1/2 = 6044/100 by norm_num, hf]
    decide
  exact ⟨h1, h2, by rw [h1, h2]; decide⟩

/-! ### C2: detection cache overwrite discipline -/

/-- C2: one loop iteration either leaves last_detections unchanged or
overwrites it with the non-empty result list of a successful fresh
analysis; in particular an analyzed frame with zero faces preserves the
cache, and a skipped frame while the cache has never been filled (cache
empty) is written through unannotated. -/
theorem detection_cache_persistence (k : ℕ) (s : LoopState) (i : ℕ)
    (f : FrameInput) :
    ((step k s i f).lastDetections = s.lastDetections
      ∨ ∃ dets, f.analysis = Except.ok dets ∧ dets ≠ []
          ∧ (step k s i f).lastDetections = dets)
  ∧ (∀ dets, f.analysis = Except.ok dets → dets = [] →
      (step k s i f).lastDetections = s.lastDetections)
  ∧ (f.validShape = true → (s.processedFrames + 1) % k ≠ 0 →
      s.lastDetections = [] →
      (step k s i f).written = s.written ++ [(i, ([] : List Det))]) := by
  refine ⟨?_, ?_, ?_⟩
  · cases hv : f.validShape with
    | false => rw [step_invalid k s i f hv]; exact Or.inl rfl
    | true =>
      by_cases h : (s.processedFrames + 1) % k = 0
      · cases he : f.encodeOk with
        | false => rw [step_encodeFail k s i f hv h he]; exact Or.inl rfl
        | true =>
          cases ha : f.analysis with
          | error e =>
            cases e
            rw [step_analyzeError k s i f hv h he ha]
            exact Or.inl rfl
          | ok dets =>
            by_cases hne : dets = []
            · rw [step_analyzeEmpty k s i f hv h he (hne ▸ ha)]
              exact Or.inl rfl
            · refine Or.inr ⟨dets, rfl, hne, ?_⟩
              rw [step_analyzeOk k s i f dets hv h he ha hne]
      · rw [step_skip k s i f hv h]; exact Or.inl rfl
  · intro dets ha hde
    subst hde
    cases hv : f.validShape with
    | false => rw [step_invalid k s i f hv]
    | true =>
      by_cases h : (s.processedFrames + 1) % k = 0
      · cases he : f.encodeOk with
        | false => rw [step_encodeFail k s i f hv h he]
        | true => rw [step_analyzeEmpty k s i f hv h he ha]
      · rw [step_skip k s i f hv h]
  · intro hv h hempty
    rw [step_skip k s i f hv h, hempty]

/-- C2 witness: an analyzed frame whose analysis returns zero faces
leaves the (empty) initial cache unchanged. -/
theorem detection_cache_persistence_witness :
    (step 1 initState 0 ⟨true, true, Except.ok []⟩).lastDetections
      = initState.lastDetections :=
  (detection_cache_persistence 1 initState 0
      ⟨true, true, Except.ok []⟩).2.1 [] rfl rfl

/-! ### C3: sink write discipline -/

/-- The write/drop decision of the loop, isolated from the rest of the
state: given the running processed-frame counter pf and the next input
index i, returns the indices of frames written to the sink and the
indices of frames silently dropped because their analysis-scheduled
JPEG encoding failed. -/
def sinkSpec (k : ℕ) : ℕ → ℕ → List FrameInput → List ℕ × List ℕ
  | _, _, [] => ([], [])
  | pf, i, f :: rest =>
    if f.validShape = false then sinkSpec k pf (i + 1) rest
    else
      let p := sinkSpec k (pf + 1) (i + 1) rest
      if (pf + 1) % k = 0 ∧ f.encodeOk = false then (p.1, i :: p.2)
      else (i :: p.1, p.2)

lemma runFrom_written_map (k : ℕ) :
    ∀ (inputs : List FrameInput) (s : LoopState) (i : ℕ),
      (runFrom k s i inputs).written.map Prod.fst
        = s.written.map Prod.fst ++ (sinkSpec k s.processedFrames i inputs).1 := by
  intro inputs
  induction inputs with
  | nil => intro s i; simp [runFrom, sinkSpec]
  | cons f rest ih =>
    intro s i
    rw [runFrom]
    cases hv : f.validShape with
    | false =>
      rw [step_invalid k s i f hv, ih, sinkSpec, hv]
      simp
    | true =>
      by_cases h : (s.processedFrames + 1) % k = 0
      · cases he : f.encodeOk with
        | false =>
          rw [step_encodeFail k s i f hv h he, ih]
          simp [sinkSpec, hv, h, he]
        | true =>
          cases ha : f.analysis with
          | error e =>
            cases e
            rw [step_analyzeError k s i f hv h he ha, ih]
            simp [sinkSpec, hv, h, he]
          | ok dets =>
            by_cases hne : dets = []
            · rw [step_analyzeEmpty k s i f hv h he (hne ▸ ha), ih]
              simp [sinkSpec, hv, h, he]
            · rw [step_analyzeOk k s i f dets hv h he ha hne, ih]
              simp [sinkSpec, hv, h, he]
      · rw [step_skip k s i f hv h, ih]
        simp [sinkSpec, hv, h]

lemma sinkSpec_lower (k : ℕ) :
    ∀ (inputs : List FrameInput) (pf i : ℕ),
      ∀ j ∈ (sinkSpec k pf i inputs).1, i ≤ j := by
  intro inputs
  induction inputs with
  | nil => intro pf i j hj; simp [sinkSpec] at hj
  | cons f rest ih =>
    intro pf i j hj
    rw [sinkSpec] at hj
    by_cases hv : f.validShape = false
    · rw [if_pos hv] at hj
      exact Nat.le_of_succ_le (ih pf (i + 1) j hj)
    · rw [if_neg hv] at hj
      by_cases hc : (pf + 1) % k = 0 ∧ f.encodeOk = false
      · rw [if_pos hc] at hj
        exact Nat.le_of_succ_le (ih (pf + 1) (i + 1) j hj)
      · rw [if_neg hc] at hj
        rcases List.mem_cons.mp hj with h | h
        · omega
        · exact Nat.le_of_succ_le (ih (pf + 1) (i + 1) j h)

lemma sinkSpec_chain (k : ℕ) :
    ∀ (inputs : List FrameInput) (pf i : ℕ),
      List.Chain' (· < ·) (sinkSpec k pf i inputs).1 := by
  intro inputs
  induction inputs with
  | nil => intro pf i; simp [sinkSpec]
  | cons f rest ih =>
    intro pf i
    rw [sinkSpec]
    by_cases hv : f.validShape = false
    · rw [if_pos hv]; exact ih pf (i + 1)
    · rw [if_neg hv]
      by_cases hc : (pf + 1) % k = 0 ∧ f.encodeOk = false
      · rw [if_pos hc]; exact ih (pf + 1) (i + 1)
      · rw [if_neg hc]
        refine List.chain'_cons'.mpr ⟨?_, ih (pf + 1) (i + 1)⟩
        intro j hj
        have := sinkSpec_lower k rest (pf + 1) (i + 1) j
          (List.mem_of_mem_head? hj)
        omega

lemma sinkSpec_length (k : ℕ) :
    ∀ (inputs : List FrameInput) (pf i : ℕ),
      (sinkSpec k pf i inputs).1.length + (sinkSpec k pf i inputs).2.length
        = inputs.countP (fun f => f.validShape) := by
  intro inputs
  induction inputs with
  | nil => intro pf i; simp [sinkSpec]
  | cons f rest ih =>
    intro pf i
    rw [sinkSpec, List.countP_cons]
    by_cases hv : f.validShape = false
    · rw [if_pos hv, hv]
      simpa using ih pf (i + 1)
    · have hv' : f.validShape = true := by
        cases hvs : f.validShape
        · exact absurd hvs hv
        · rfl
      rw [if_neg hv, hv']
      by_cases hc : (pf + 1) % k = 0 ∧ f.encodeOk = false
      · rw [if_pos hc]
        have := ih (pf + 1) (i + 1)
        simp only [List.length_cons, if_true]
        omega
      · rw [if_neg hc]
        have := ih (pf + 1) (i + 1)
        simp only [List.length_cons, if_true]
        omega

/-- C3 (amended): the sink writes the frames in strictly increasing read
order, one output frame per successfully decoded frame, except that an
analysis-scheduled frame whose JPEG encoding (cv2.imencode) fails is
dropped without being written; frames whose analysis call raises are
still written, unannotated. -/
theorem sink_write_discipline (k : ℕ) (hk : 1 ≤ k)
    (inputs : List FrameInput) :
    (processFrames k inputs).written.map Prod.fst = (sinkSpec k 0 0 inputs).1
  ∧ List.Chain' (· < ·) ((processFrames k inputs).written.map Prod.fst)
  ∧ (processFrames k inputs).written.length + (sinkSpec k 0 0 inputs).2.length
      = inputs.countP (fun f => f.validShape)
  ∧ (∀ (s : LoopState) (i : ℕ) (f : FrameInput), f.validShape = true →
      (s.processedFrames + 1) % k = 0 → f.encodeOk = true →
      f.analysis = Except.error () →
      (step k s i f).written = s.written ++ [(i, ([] : List Det))]) := by
  have hmap := runFrom_written_map k inputs initState 0
  have hmap' : (processFrames k inputs).written.map Prod.fst
      = (sinkSpec k 0 0 inputs).1 := by
    rw [processFrames, hmap]
    rfl
  refine ⟨hmap', ?_, ?_, ?_⟩
  · rw [hmap']
    exact sinkSpec_chain k inputs 0 0
  · have hlen : (processFrames k inputs).written.length
        = (sinkSpec k 0 0 inputs).1.length := by
      rw [← List.length_map _ Prod.fst, hmap']
    rw [hlen]
    exact sinkSpec_length k inputs 0 0
  · intro s i f hv h he ha
    rw [step_analyzeError k s i f hv h he ha]

/-- C3 witness: a run of two valid frames at interval 2 in which the
second (analyzed) frame's whole processing succeeds writes both frames
in order. -/
theorem sink_write_discipline_witness :
    (processFrames 2 [⟨true, true, Except.ok []⟩,
        ⟨true, true, Except.ok []⟩]).written.map Prod.fst
      = (sinkSpec 2 0 0 [⟨true, true, Except.ok []⟩,
          ⟨true, true, Except.ok []⟩]).1 :=
  (sink_write_discipline 2 (by norm_num)
    [⟨true, true, Except.ok []⟩, ⟨true, true, Except.ok []⟩]).1

/-- C3 counterexample: with interval 2, two successfully decoded frames
of which the second (analysis-scheduled) fails JPEG encoding produce only
one written frame, so frame count out differs from frame count in. -/
theorem sink_write_counterexample :
    (processFrames 2 [⟨true, true, Except.ok []⟩,
        ⟨true, false, Except.ok []⟩]).written.length = 1
  ∧ ([⟨true, true, Except.ok []⟩,
      (⟨true, false, Except.ok []⟩ : FrameInput)].countP
        (fun f => f.validShape)) = 2 := by
  constructor <;> rfl

/-! ### Rounding bounds and summary arithmetic -/

lemma roundHalfEven_close (q : ℚ) : |((roundHalfEven q : ℤ) : ℚ) - q| ≤ 1/2 := by
  have hadd : ((⌊q⌋ : ℚ)) + Int.fract q = q := Int.floor_add_fract q
  have hr0 : 0 ≤ Int.fract q := Int.fract_nonneg q
  have hr1 : Int.fract q < 1 := Int.fract_lt_one q
  unfold roundHalfEven
  split_ifs with h1 h2 h3
  · rw [abs_le]
    constructor <;> linarith
  · rw [abs_le]
    push_cast
    constructor <;> linarith
  · have he : Int.fract q = 1/2 := le_antisymm (not_lt.mp h2) (not_lt.mp h1)
    rw [abs_le]
    constructor <;> linarith
  · have he : Int.fract q = 1/2 := le_antisymm (not_lt.mp h2) (not_lt.mp h1)
    rw [abs_le]
    push_cast
    constructor <;> linarith

lemma round2_close (q : ℚ) : |round2 q - q| ≤ 1/200 := by
  have h := roundHalfEven_close (q * 100)
  rw [abs_le] at h ⊢
  unfold round2
  constructor <;> [linarith; linarith]

lemma round2_zero : round2 0 = 0 := by
  have h0 : (0 : ℚ) * 100 = 0 := by ring
  unfold round2 roundHalfEven
  rw [h0, Int.fract_zero, Int.floor_zero]
  norm_num

lemma sum_map_round2_close (l : List ℚ) :
    |(l.map round2).sum - l.sum| ≤ (l.length : ℚ) * (1/200) := by
  induction l with
  | nil => simp
  | cons x xs ih =>
    simp only [List.map_cons, List.sum_cons, List.length_cons]
    have h1 := round2_close x
    have key : round2 x + (xs.map round2).sum - (x + xs.sum)
        = (round2 x - x) + ((xs.map round2).sum - xs.sum) := by ring
    rw [key]
    refine le_trans (abs_add _ _) ?_
    push_cast
    linarith

lemma sum_map_pct (l : List ℕ) (S : ℚ) :
    (l.map (fun v : ℕ => (v : ℚ) / S * 100)).sum = ((l.sum : ℚ)) / S * 100 := by
  induction l with
  | nil => simp
  | cons x xs ih =>
    simp only [List.map_cons, List.sum_cons, ih]
    push_cast
    ring

lemma incrCounts_fst (dets : List Det) :
    ∀ cs : List (String × ℕ),
      (incrCounts cs dets).map Prod.fst = cs.map Prod.fst := by
  induction dets with
  | nil => intro cs; rfl
  | cons d rest ih =>
    intro cs
    show (incrCounts (if validBbox d then
        cs.map (fun kv => if kv.1 = d.emotion then (kv.1, kv.2 + 1) else kv)
      else cs) rest).map Prod.fst = cs.map Prod.fst
    rw [ih]
    by_cases hb : validBbox d
    · rw [if_pos hb, List.map_map]
      apply List.map_congr_left
      intro kv _
      by_cases hkv : kv.1 = d.emotion <;> simp [hkv]
    · rw [if_neg hb]

lemma step_counts_fst (k : ℕ) (s : LoopState) (i : ℕ) (f : FrameInput) :
    (step k s i f).emotionCounts.map Prod.fst
      = s.emotionCounts.map Prod.fst := by
  cases hv : f.validShape with
  | false => rw [step_invalid k s i f hv]
  | true =>
    by_cases h : (s.processedFrames + 1) % k = 0
    · cases he : f.encodeOk with
      | false => rw [step_encodeFail k s i f hv h he]
      | true =>
        cases ha : f.analysis with
        | error e =>
          cases e
          rw [step_analyzeError k s i f hv h he ha]
        | ok dets =>
          by_cases hne : dets = []
          · rw [step_analyzeEmpty k s i f hv h he (hne ▸ ha)]
          · rw [step_analyzeOk k s i f dets hv h he ha hne]
            exact incrCounts_fst dets s.emotionCounts
    · rw [step_skip k s i f hv h]

lemma runFrom_counts_fst (k : ℕ) :
    ∀ (inputs : List FrameInput) (s : LoopState) (i : ℕ),
      (runFrom k s i inputs).emotionCounts.map Prod.fst
        = s.emotionCounts.map Prod.fst := by
  intro inputs
  induction inputs with
  | nil => intro s i; rfl
  | cons f rest ih =>
    intro s i
    rw [runFrom, ih, step_counts_fst]

lemma processFrames_counts_fst (k : ℕ) (inputs : List FrameInput) :
    (processFrames k inputs).emotionCounts.map Prod.fst = emotionLabels := by
  rw [processFrames, runFrom_counts_fst]
  show initCounts.map Prod.fst = emotionLabels
  rw [initCounts, List.map_map]
  exact List.map_id emotionLabels

lemma summary_sum_close (c : List (String × ℕ))
    (hS : 0 < (c.map Prod.snd).sum) :
    |((summaryOf c).map Prod.snd).sum - 100| ≤ (c.length : ℚ) * (1/200) := by
  have hSne : (c.map Prod.snd).sum ≠ 0 := Nat.pos_iff_ne_zero.mp hS
  have hS0 : (((c.map Prod.snd).sum : ℕ) : ℚ) ≠ 0 := by
    exact_mod_cast hSne
  have htot : ((pyTotal c : ℕ) : ℚ) = (((c.map Prod.snd).sum : ℕ) : ℚ) := by
    unfold pyTotal
    rw [if_neg hSne]
  have hmapsnd : (summaryOf c).map Prod.snd
      = ((c.map Prod.snd).map
          (fun v : ℕ => (v : ℚ) / (((c.map Prod.snd).sum : ℕ) : ℚ) * 100)).map
            round2 := by
    simp only [summaryOf, List.map_map]
    apply List.map_congr_left
    intro kv _
    simp [htot]
  have hclose := sum_map_round2_close ((c.map Prod.snd).map
    (fun v : ℕ => (v : ℚ) / (((c.map Prod.snd).sum : ℕ) : ℚ) * 100))
  have hsum : ((c.map Prod.snd).map
      (fun v : ℕ => (v : ℚ) / (((c.map Prod.snd).sum : ℕ) : ℚ) * 100)).sum
        = 100 := by
    rw [sum_map_pct, div_self hS0, one_mul]
  rw [hmapsnd]
  rw [hsum] at hclose
  simpa using hclose

lemma summary_all_zero (c : List (String × ℕ))
    (hS : (c.map Prod.snd).sum = 0) :
    ∀ p ∈ summaryOf c, p.2 = 0 := by
  intro p hp
  rcases List.mem_map.mp hp with ⟨kv, hkv, hpe⟩
  have hz : kv.2 = 0 := by
    have := (List.sum_eq_zero_iff).mp hS kv.2
      (List.mem_map.mpr ⟨kv, hkv, rfl⟩)
    exact this
  rw [← hpe]
  show round2 ((kv.2 : ℚ) / (pyTotal c : ℚ) * 100) = 0
  rw [hz]
  norm_num [round2_zero]

/-! ### C5: summary percentages -/

/-- C5: at run end the summary maps the 7 emotion labels (in order) to
their percentages of the counter total (zero total treated as one),
rounded to two decimals; the percentages sum to 100 within the rounding
epsilon 7 × 0.005 whenever at least one detection was counted, and every
class is 0 when no detection was counted. -/
theorem summary_percentages (k : ℕ) (hk : 1 ≤ k) (inputs : List FrameInput) :
    (processFrames k inputs).emotionCounts.map Prod.fst = emotionLabels
  ∧ (((processFrames k inputs).emotionCounts.map Prod.snd).sum = 0 →
      ∀ p ∈ summaryOf (processFrames k inputs).emotionCounts, p.2 = 0)
  ∧ (0 < ((processFrames k inputs).emotionCounts.map Prod.snd).sum →
      |((summaryOf (processFrames k inputs).emotionCounts).map
          Prod.snd).sum - 100| ≤ 7/200) := by
  refine ⟨processFrames_counts_fst k inputs, ?_, ?_⟩
  · exact summary_all_zero _
  · intro hS
    have hlen : (processFrames k inputs).emotionCounts.length = 7 := by
      have := processFrames_counts_fst k inputs
      have hl : ((processFrames k inputs).emotionCounts.map Prod.fst).length
          = emotionLabels.length := by rw [this]
      simpa using hl
    have h := summary_sum_close _ hS
    rw [hlen] at h
    calc |((summaryOf (processFrames k inputs).emotionCounts).map
            Prod.snd).sum - 100|
        ≤ ((7 : ℕ) : ℚ) * (1/200) := h
      _ = 7/200 := by norm_num

/-- C5 witness: a one-frame run at interval 1 whose analysis yields one
happy face has a summary whose percentages sum to 100 within the
rounding epsilon. -/
theorem summary_percentages_witness :
    |((summaryOf (processFrames 1
        [⟨true, true, Except.ok [⟨some [0, 0, 40, 40], "happy", 1⟩]⟩]
      ).emotionCounts).map Prod.snd).sum - 100| ≤ 7/200 :=
  (summary_percentages 1 (by norm_num)
      [⟨true, true, Except.ok [⟨some [0, 0, 40, 40], "happy", 1⟩]⟩]).2.2
    (by decide)

/-! ### Counter arithmetic of the loop -/

lemma step_processed_valid (k : ℕ) (s : LoopState) (i : ℕ) (f : FrameInput)
    (hv : f.validShape = true) :
    (step k s i f).processedFrames = s.processedFrames + 1 := by
  by_cases h : (s.processedFrames + 1) % k = 0
  · cases he : f.encodeOk with
    | false => rw [step_encodeFail k s i f hv h he]
    | true =>
      cases ha : f.analysis with
      | error e =>
        cases e
        rw [step_analyzeError k s i f hv h he ha]
      | ok dets =>
        by_cases hne : dets = []
        · rw [step_analyzeEmpty k s i f hv h he (hne ▸ ha)]
        · rw [step_analyzeOk k s i f dets hv h he ha hne]
  · rw [step_skip k s i f hv h]

lemma step_analyzed_of_miss (k : ℕ) (s : LoopState) (i : ℕ) (f : FrameInput)
    (hv : f.validShape = true) (h : (s.processedFrames + 1) % k ≠ 0) :
    (step k s i f).analyzedFrames = s.analyzedFrames := by
  rw [step_skip k s i f hv h]

lemma runFrom_counters (k : ℕ) :
    ∀ (inputs : List FrameInput) (s : LoopState) (i : ℕ),
      (runFrom k s i inputs).processedFrames
        = s.processedFrames + inputs.countP (fun f => f.validShape)
    ∧ (runFrom k s i inputs).analyzedFrames
        = s.analyzedFrames
          + ((s.processedFrames + inputs.countP (fun f => f.validShape)) / k
              - s.processedFrames / k) := by
  intro inputs
  induction inputs with
  | nil => intro s i; constructor <;> simp [runFrom]
  | cons f rest ih =>
    intro s i
    rw [runFrom, List.countP_cons]
    cases hv : f.validShape with
    | false =>
      rw [step_invalid k s i f hv]
      simpa [hv] using ih s (i + 1)
    | true =>
      obtain ⟨ihp, iha⟩ := ih (step k s i f) (i + 1)
      simp only [hv, if_true]
      constructor
      · rw [ihp, step_processed_valid k s i f hv]
        omega
      · rw [iha, step_processed_valid k s i f hv]
        have hre : s.processedFrames + (rest.countP (fun f => f.validShape) + 1)
            = s.processedFrames + 1 + rest.countP (fun f => f.validShape) := by
          omega
        rw [hre]
        by_cases h : (s.processedFrames + 1) % k = 0
        · rw [step_analyzed_of_hit k s i f hv h]
          have hd : k ∣ s.processedFrames + 1 := Nat.dvd_of_mod_eq_zero h
          have hsucc : (s.processedFrames + 1) / k
              = s.processedFrames / k + 1 := by
            rw [Nat.succ_div, if_pos hd]
          have hm2 : (s.processedFrames + 1) / k
              ≤ (s.processedFrames + 1 + rest.countP (fun f => f.validShape)) / k :=
            Nat.div_le_div_right (Nat.le_add_right _ _)
          obtain ⟨A, hA⟩ : ∃ n, s.processedFrames / k = n := ⟨_, rfl⟩
          obtain ⟨B, hB⟩ : ∃ n, (s.processedFrames + 1) / k = n := ⟨_, rfl⟩
          obtain ⟨C, hC⟩ : ∃ n,
            (s.processedFrames + 1 + rest.countP (fun f => f.validShape)) / k
              = n := ⟨_, rfl⟩
          rw [hA, hB] at hsucc
          rw [hB, hC] at hm2
          rw [hA, hB, hC]
          omega
        · rw [step_analyzed_of_miss k s i f hv h]
          have hnd : ¬ k ∣ s.processedFrames + 1 := by
            intro hd
            rcases hd with ⟨c, hc⟩
            exact h (by rw [hc]; simp [Nat.mul_mod_right])
          have hsucc : (s.processedFrames + 1) / k = s.processedFrames / k := by
            rw [Nat.succ_div, if_neg hnd]
            simp
          rw [hsucc]

lemma step_error_last (k : ℕ) (s : LoopState) (i : ℕ) (f : FrameInput)
    (hf : f.analysis = Except.error ()) :
    (step k s i f).lastDetections = s.lastDetections := by
  cases hv : f.validShape with
  | false => rw [step_invalid k s i f hv]
  | true =>
    by_cases hm : (s.processedFrames + 1) % k = 0
    · cases he : f.encodeOk with
      | false => rw [step_encodeFail k s i f hv hm he]
      | true => rw [step_analyzeError k s i f hv hm he hf]
    · rw [step_skip k s i f hv hm]

lemma step_error_counts (k : ℕ) (s : LoopState) (i : ℕ) (f : FrameInput)
    (hf : f.analysis = Except.error ()) :
    (step k s i f).emotionCounts = s.emotionCounts := by
  cases hv : f.validShape with
  | false => rw [step_invalid k s i f hv]
  | true =>
    by_cases hm : (s.processedFrames + 1) % k = 0
    · cases he : f.encodeOk with
      | false => rw [step_encodeFail k s i f hv hm he]
      | true => rw [step_analyzeError k s i f hv hm he hf]
    · rw [step_skip k s i f hv hm]

lemma step_error_written (k : ℕ) (s : LoopState) (i : ℕ) (f : FrameInput)
    (hf : f.analysis = Except.error ()) :
    (step k s i f).written = s.written
  ∨ (step k s i f).written = s.written ++ [(i, s.lastDetections)]
  ∨ (step k s i f).written = s.written ++ [(i, ([] : List Det))] := by
  cases hv : f.validShape with
  | false => rw [step_invalid k s i f hv]; exact Or.inl rfl
  | true =>
    by_cases hm : (s.processedFrames + 1) % k = 0
    · cases he : f.encodeOk with
      | false =>
        rw [step_encodeFail k s i f hv hm he]
        exact Or.inl rfl
      | true =>
        rw [step_analyzeError k s i f hv hm he hf]
        exact Or.inr (Or.inr rfl)
    · rw [step_skip k s i f hv hm]
      exact Or.inr (Or.inl rfl)

lemma runFrom_allError (k : ℕ) :
    ∀ (inputs : List FrameInput),
      (∀ f ∈ inputs, f.analysis = Except.error ()) →
      ∀ (s : LoopState) (i : ℕ),
      (runFrom k s i inputs).lastDetections = s.lastDetections
    ∧ (runFrom k s i inputs).emotionCounts = s.emotionCounts
    ∧ (s.lastDetections = [] →
        ∀ e ∈ (runFrom k s i inputs).written, e ∈ s.written ∨ e.2 = []) := by
  intro inputs
  induction inputs with
  | nil =>
    intro _ s i
    exact ⟨rfl, rfl, fun _ e he => Or.inl he⟩
  | cons f rest ih =>
    intro h s i
    have hf : f.analysis = Except.error () := h f (List.mem_cons_self f rest)
    have hrest : ∀ g ∈ rest, g.analysis = Except.error () :=
      fun g hg => h g (List.mem_cons_of_mem f hg)
    obtain ⟨ih1, ih2, ih3⟩ := ih hrest (step k s i f) (i + 1)
    rw [runFrom]
    refine ⟨?_, ?_, ?_⟩
    · rw [ih1, step_error_last k s i f hf]
    · rw [ih2, step_error_counts k s i f hf]
    · intro hld e he'
      have hld' : (step k s i f).lastDetections = [] := by
        rw [step_error_last k s i f hf, hld]
      rcases ih3 hld' e he' with hmem | hnil
      · rcases step_error_written k s i f hf with hw | hw | hw
        · rw [hw] at hmem
          exact Or.inl hmem
        · rw [hw] at hmem
          rcases List.mem_append.mp hmem with h1 | h2
          · exact Or.inl h1
          · right
            rw [List.mem_singleton.mp h2]
            exact hld
        · rw [hw] at hmem
          rcases List.mem_append.mp hmem with h1 | h2
          · exact Or.inl h1
          · right
            rw [List.mem_singleton.mp h2]
      · exact Or.inr hnil

/-! ### C6: run completes when the classifier always raises -/

lemma initCounts_snd_sum : (initCounts.map Prod.snd).sum = 0 := by
  decide

/-- C6: when analyze_bytes raises on every call, the run still completes
with analyzed_frames counting every attempted-but-failed analysis (the
counter increments before the failing call: one per interval-multiple
among valid frames, i.e. validCount / interval in total), the detection
cache stays empty, every written frame is unannotated, the counters stay
at zero and the summary is all zeros. -/
theorem classifier_failure_degrades (k : ℕ) (hk : 1 ≤ k)
    (inputs : List FrameInput)
    (h : ∀ f ∈ inputs, f.analysis = Except.error ()) :
    (processFrames k inputs).analyzedFrames
        = inputs.countP (fun f => f.validShape) / k
  ∧ (processFrames k inputs).lastDetections = []
  ∧ (processFrames k inputs).emotionCounts = initCounts
  ∧ (∀ e ∈ (processFrames k inputs).written, e.2 = ([] : List Det))
  ∧ (∀ p ∈ summaryOf (processFrames k inputs).emotionCounts, p.2 = 0) := by
  obtain ⟨e1, e2, e3⟩ := runFrom_allError k inputs h initState 0
  have hc := (runFrom_counters k inputs initState 0).2
  refine ⟨?_, e1, e2, ?_, ?_⟩
  · show (runFrom k initState 0 inputs).analyzedFrames
      = inputs.countP (fun f => f.validShape) / k
    rw [hc]
    show 0 + ((0 + inputs.countP (fun f => f.validShape)) / k - 0 / k)
      = inputs.countP (fun f => f.validShape) / k
    simp
  · intro e he
    rcases e3 rfl e he with hmem | hnil
    · exact absurd hmem (List.not_mem_nil e)
    · exact hnil
  · have h0 : (processFrames k inputs).emotionCounts = initCounts := e2
    rw [h0]
    exact summary_all_zero initCounts initCounts_snd_sum

/-- C6 witness: one valid frame whose analysis raises, at interval 1:
the frame counts as analyzed, nothing is cached or counted, the frame is
written unannotated and the summary is all zeros. -/
theorem classifier_failure_degrades_witness :
    (processFrames 1 [⟨true, true, Except.error ()⟩]).analyzedFrames
      = ([(⟨true, true, Except.error ()⟩ : FrameInput)].countP
          (fun f => f.validShape)) / 1 :=
  (classifier_failure_degrades 1 (by norm_num)
    [⟨true, true, Except.error ()⟩]
    (by intro f hf; rw [List.mem_singleton] at hf; subst hf; rfl)).1

/-! ### C4: face filtering thresholds -/

lemma processDet_none (det : RawDet) (hbox : det.box = none) :
    processDet det = none := by
  unfold processDet
  rw [hbox]

lemma processDet_eq (det : RawDet) (x y w h : ℤ)
    (hbox : det.box = some (x, y, w, h)) :
    processDet det =
      if (match det.confidence with
          | some c => decide (c < 85/100)
          | none => false) then none
      else if max 1 w < 30 ∨ max 1 h < 30 then none
      else some ⟨max 0 x, max 0 y, max 1 w, max 1 h⟩ := by
  unfold processDet
  rw [hbox]

lemma snd_mem_of_mem_enum {α : Type _} {l : List α} {p : ℕ × α}
    (h : p ∈ l.enum) : p.2 ∈ l :=
  List.getElem?_mem (List.mem_enum_iff_getElem?.mp h)

lemma detect_faces_bounds (dres : Except Unit (List RawDet)) :
    ∀ b ∈ detect_faces dres, 0 ≤ b.x ∧ 0 ≤ b.y ∧ 30 ≤ b.w ∧ 30 ≤ b.h := by
  intro b hb
  cases dres with
  | error e => simp [detect_faces] at hb
  | ok dets =>
    simp only [detect_faces] at hb
    obtain ⟨det, _, hp⟩ := List.mem_filterMap.mp hb
    rcases hbox : det.box with _ | ⟨x, y, w, h⟩
    · rw [processDet_none det hbox] at hp
      exact absurd hp (by simp)
    · rw [processDet_eq det x y w h hbox] at hp
      cases hcond : (match det.confidence with
          | some c => decide (c < 85/100)
          | none => false) with
      | true =>
        rw [hcond] at hp
        exact absurd hp (by simp)
      | false =>
        rw [hcond] at hp
        simp only [Bool.false_eq_true, if_false] at hp
        by_cases hs : max 1 w < 30 ∨ max 1 h < 30
        · rw [if_pos hs] at hp
          exact absurd hp (by simp)
        · rw [if_neg hs] at hp
          push_neg at hs
          rw [← Option.some.inj hp]
          exact ⟨le_max_left 0 x, le_max_left 0 y, hs.1, hs.2⟩

/-- C4: a raw face box whose detector confidence is below 0.85, or whose
(clamped) width or height is below 30 pixels, contributes nothing to the
surfaced detections; every surfaced box has non-negative origin and
width/height at least 30, and each result surfaced by analyze_bytes
carries such a box. -/
theorem face_filtering_thresholds (dres : Except Unit (List RawDet)) :
    (∀ b ∈ detect_faces dres, 0 ≤ b.x ∧ 0 ≤ b.y ∧ 30 ≤ b.w ∧ 30 ≤ b.h)
  ∧ (∀ (det : RawDet) (c : ℚ), det.confidence = some c → c < 85/100 →
      processDet det = none)
  ∧ (∀ (det : RawDet) (x y w h : ℤ), det.box = some (x, y, w, h) →
      w < 30 ∨ h < 30 → processDet det = none)
  ∧ (∀ (expf : ℚ → ℚ) (W H : ℤ) (predict : ℕ → List ℚ),
      ∀ r ∈ (analyze_bytes expf W H dres predict).results,
        ∃ b ∈ detect_faces dres,
          r.bbox = [b.x, b.y, b.w, b.h]
          ∧ 0 ≤ b.x ∧ 0 ≤ b.y ∧ 30 ≤ b.w ∧ 30 ≤ b.h) := by
  refine ⟨detect_faces_bounds dres, ?_, ?_, ?_⟩
  · intro det c hconf hlow
    rcases hbox : det.box with _ | ⟨x, y, w, h⟩
    · exact processDet_none det hbox
    · rw [processDet_eq det x y w h hbox, hconf]
      simp [hlow]
  · intro det x y w h hbox hsmall
    rw [processDet_eq det x y w h hbox]
    cases hcond : (match det.confidence with
        | some c => decide (c < 85/100)
        | none => false) with
    | true => simp [hcond]
    | false =>
      simp only [hcond, Bool.false_eq_true, if_false]
      rw [if_pos]
      rcases hsmall with hw | hh
      · exact Or.inl (max_lt_iff.mpr ⟨by norm_num, hw⟩)
      · exact Or.inr (max_lt_iff.mpr ⟨by norm_num, hh⟩)
  · intro expf W H predict r hr
    unfold analyze_bytes at hr
    by_cases hempty : (detect_faces dres).isEmpty
    · rw [if_pos hempty] at hr
      exact absurd hr (by simp)
    · rw [if_neg hempty] at hr
      simp only at hr
      obtain ⟨p, hpmem, hpsome⟩ := List.mem_filterMap.mp hr
      have hbmem : p.2 ∈ detect_faces dres := snd_mem_of_mem_enum hpmem
      refine ⟨p.2, hbmem, ?_, detect_faces_bounds dres p.2 hbmem⟩
      unfold faceResultOf at hpsome
      by_cases hroi : p.2.x < W ∧ p.2.y < H
      · rw [if_pos hroi] at hpsome
        rw [← Option.some.inj hpsome]
      · rw [if_neg hroi] at hpsome
        exact absurd hpsome (by simp)

/-- C4 witness: a raw detection with confidence 0.5 is discarded, and a
30×30 box at the origin with confidence 0.9 is surfaced with in-range
fields. -/
theorem face_filtering_thresholds_witness :
    processDet ⟨some (0, 0, 40, 40), some (1/2)⟩ = none :=
  (face_filtering_thresholds
      (Except.ok [⟨some (0, 0, 40, 40), some (1/2)⟩])).2.1
    ⟨some (0, 0, 40, 40), some (1/2)⟩ (1/2) rfl (by norm_num)

/-! ### C10: argmax and softmax facts -/

lemma argmaxAux_spec (xs : List ℚ) :
    ∀ (rest : List ℚ) (i bi : ℕ) (bv : ℚ),
      xs.drop i = rest → bi < i → bi < xs.length → xs.getD bi 0 = bv →
      (∀ v ∈ xs.take i, v ≤ bv) →
      argmaxAux rest i bi bv < xs.length
    ∧ ∀ v ∈ xs, v ≤ xs.getD (argmaxAux rest i bi bv) 0 := by
  intro rest
  induction rest with
  | nil =>
    intro i bi bv hdrop hbii hbil hbv htake
    refine ⟨hbil, ?_⟩
    intro v hv
    have hlen : xs.length ≤ i := List.drop_eq_nil_iff.mp hdrop
    have htk : xs.take i = xs := List.take_all_of_le hlen
    show v ≤ xs.getD bi 0
    rw [hbv]
    exact htake v (by rw [htk]; exact hv)
  | cons x rest' ih =>
    intro i bi bv hdrop hbii hbil hbv htake
    have hx : xs[i]? = some x := by
      have h0 := List.getElem?_drop xs i 0
      rw [hdrop] at h0
      simpa using h0.symm
    have hil : i < xs.length := by
      rcases List.getElem?_eq_some_iff.mp hx with ⟨hlt, _⟩
      exact hlt
    have hdrop' : xs.drop (i + 1) = rest' := by
      rw [← List.tail_drop, hdrop]
      rfl
    have hgetI : xs.getD i 0 = x := by
      rw [List.getD_eq_getElem?_getD, hx]
      rfl
    rw [argmaxAux]
    by_cases hlt : bv < x
    · rw [if_pos hlt]
      refine ih (i + 1) i x hdrop' (Nat.lt_succ_self i) hil hgetI ?_
      intro v hv
      rw [List.take_succ] at hv
      rcases List.mem_append.mp hv with h1 | h2
      · exact le_of_lt (lt_of_le_of_lt (htake v h1) hlt)
      · rw [hx] at h2
        simp at h2
        rw [h2]
    · rw [if_neg hlt]
      refine ih (i + 1) bi bv hdrop' (Nat.lt_succ_of_lt hbii) hbil hbv ?_
      intro v hv
      rw [List.take_succ] at hv
      rcases List.mem_append.mp hv with h1 | h2
      · exact htake v h1
      · rw [hx] at h2
        simp at h2
        rw [h2]
        exact not_lt.mp hlt

lemma argmaxIdx_spec (xs : List ℚ) (hne : xs ≠ []) :
    argmaxIdx xs < xs.length
  ∧ ∀ v ∈ xs, v ≤ xs.getD (argmaxIdx xs) 0 := by
  cases xs with
  | nil => exact absurd rfl hne
  | cons x rest =>
    rw [argmaxIdx]
    refine argmaxAux_spec (x :: rest) rest 1 0 x rfl (by norm_num) (by simp)
      rfl ?_
    intro v hv
    simp at hv
    rw [hv]

lemma map_range_getD {α : Type _} (l : List α) (d : α) :
    (List.range l.length).map (fun j => l.getD j d) = l := by
  apply List.ext_getElem
  · simp
  · intro n h1 h2
    simp [List.getD_eq_getElem?_getD, List.getElem?_eq_getElem h2]

lemma softmax_sum_pos (expf : ℚ → ℚ) (hexp : ∀ x, 0 < expf x)
    (xs : List ℚ) (hne : xs ≠ []) : 0 < (xs.map expf).sum := by
  obtain ⟨x, hx⟩ := List.exists_mem_of_ne_nil xs hne
  have h1 : expf x ∈ xs.map expf := List.mem_map_of_mem expf hx
  have h2 : expf x ≤ (xs.map expf).sum := by
    refine List.single_le_sum ?_ _ h1
    intro b hb
    obtain ⟨a, _, rfl⟩ := List.mem_map.mp hb
    exact le_of_lt (hexp a)
  linarith [hexp x]

lemma softmax_bounds (expf : ℚ → ℚ) (hexp : ∀ x, 0 < expf x)
    (xs : List ℚ) : ∀ p ∈ softmax expf xs, 0 ≤ p ∧ p ≤ 1 := by
  intro p hp
  unfold softmax at hp
  obtain ⟨x, hx, rfl⟩ := List.mem_map.mp hp
  have hne : xs ≠ [] := by
    intro h
    subst h
    simp at hx
  have hS := softmax_sum_pos expf hexp xs hne
  have hle : expf x ≤ (xs.map expf).sum := by
    refine List.single_le_sum ?_ _ (List.mem_map_of_mem expf hx)
    intro b hb
    obtain ⟨a, _, rfl⟩ := List.mem_map.mp hb
    exact le_of_lt (hexp a)
  exact ⟨div_nonneg (le_of_lt (hexp x)) (le_of_lt hS), (div_le_one hS).mpr hle⟩

/-- C10: on every successful analyze_bytes call, num_faces equals the
length of the results list, and each result has all_probs keyed exactly
by the 7 class names in order, confidence equal to the maximum softmax
probability (a member of all_probs values, within [0, 1]), and emotion
equal to the class at the first arg-max index of its distribution. -/
theorem analyze_results_invariants (expf : ℚ → ℚ) (W H : ℤ)
    (dres : Except Unit (List RawDet)) (predict : ℕ → List ℚ)
    (hexp : ∀ x, 0 < expf x)
    (hpred : ∀ i, (predict i).length = CLASS_NAMES.length) :
    (analyze_bytes expf W H dres predict).num_faces
        = (analyze_bytes expf W H dres predict).results.length
  ∧ ∀ r ∈ (analyze_bytes expf W H dres predict).results,
      r.all_probs.map Prod.fst = CLASS_NAMES
    ∧ r.confidence ∈ r.all_probs.map Prod.snd
    ∧ (∀ q ∈ r.all_probs.map Prod.snd, q ≤ r.confidence)
    ∧ 0 ≤ r.confidence ∧ r.confidence ≤ 1
    ∧ ∃ probs idx, probs = r.all_probs.map Prod.snd
        ∧ idx = argmaxIdx probs ∧ idx < CLASS_NAMES.length
        ∧ r.emotion = CLASS_NAMES.getD idx ""
        ∧ r.confidence = probs.getD idx 0 := by
  constructor
  · unfold analyze_bytes
    by_cases hempty : (detect_faces dres).isEmpty
    · rw [if_pos hempty]
      rfl
    · rw [if_neg hempty]
  · intro r hr
    unfold analyze_bytes at hr
    by_cases hempty : (detect_faces dres).isEmpty
    · rw [if_pos hempty] at hr
      exact absurd hr (by simp)
    · rw [if_neg hempty] at hr
      simp only at hr
      obtain ⟨p, hpmem, hpsome⟩ := List.mem_filterMap.mp hr
      unfold faceResultOf at hpsome
      by_cases hroi : p.2.x < W ∧ p.2.y < H
      case neg =>
        rw [if_neg hroi] at hpsome
        exact absurd hpsome (by simp)
      rw [if_pos hroi] at hpsome
      have hr' : _ = r := Option.some.inj hpsome
      subst hr'
      set probs := softmax expf (predict p.1) with hprobs
      have hplen : probs.length = CLASS_NAMES.length := by
        rw [hprobs]
        unfold softmax
        rw [List.length_map]
        exact hpred p.1
      have hpne : probs ≠ [] := by
        intro h
        rw [h] at hplen
        exact absurd hplen.symm (by simp [CLASS_NAMES])
      obtain ⟨hidx, hmax⟩ := argmaxIdx_spec probs hpne
      have hvals : ((List.range CLASS_NAMES.length).map
          (fun j => (CLASS_NAMES.getD j "", probs.getD j 0))).map Prod.snd
            = probs := by
        rw [List.map_map]
        have hcomp : (Prod.snd ∘ fun j : ℕ =>
            (CLASS_NAMES.getD j "", probs.getD j 0))
              = fun j : ℕ => probs.getD j 0 := rfl
        rw [hcomp, ← hplen]
        exact map_range_getD probs 0
      have hkeys : ((List.range CLASS_NAMES.length).map
          (fun j => (CLASS_NAMES.getD j "", probs.getD j 0))).map Prod.fst
            = CLASS_NAMES := by
        rw [List.map_map]
        exact map_range_getD CLASS_NAMES ""
      have hconfmem : probs.getD (argmaxIdx probs) 0 ∈ probs := by
        have h1 := List.getElem_mem hidx
        rw [List.getD_eq_getElem?_getD, List.getElem?_eq_getElem hidx]
        simpa using h1
      have hbound := softmax_bounds expf hexp (predict p.1) _
        (hprobs ▸ hconfmem)
      refine ⟨hkeys, ?_, ?_, hbound.1, hbound.2, ?_⟩
      · show probs.getD (argmaxIdx probs) 0
          ∈ ((List.range CLASS_NAMES.length).map
              (fun j => (CLASS_NAMES.getD j "", probs.getD j 0))).map Prod.snd
        rw [hvals]
        exact hconfmem
      · show ∀ q ∈ ((List.range CLASS_NAMES.length).map
            (fun j => (CLASS_NAMES.getD j "", probs.getD j 0))).map Prod.snd,
          q ≤ probs.getD (argmaxIdx probs) 0
        rw [hvals]
        exact hmax
      · exact ⟨probs, argmaxIdx probs, hvals.symm, rfl, hplen ▸ hidx, rfl, rfl⟩

/-- C10 witness: with a constant positive exponential model and a single
surfaced face, num_faces equals the results length. -/
theorem analyze_results_invariants_witness :
    (analyze_bytes (fun _ => 1) 100 100
        (Except.ok [⟨some (0, 0, 40, 40), some (9/10)⟩])
        (fun _ => [1, 1, 1, 1, 1, 1, 1])).num_faces
      = (analyze_bytes (fun _ => 1) 100 100
          (Except.ok [⟨some (0, 0, 40, 40), some (9/10)⟩])
          (fun _ => [1, 1, 1, 1, 1, 1, 1])).results.length :=
  (analyze_results_invariants (fun _ => 1) 100 100
      (Except.ok [⟨some (0, 0, 40, 40), some (9/10)⟩])
      (fun _ => [1, 1, 1, 1, 1, 1, 1])
      (fun _ => by norm_num) (fun _ => rfl)).1

/-! ### C9: post-processing soft fallbacks -/

/-- C9: merge_audio falls back to the processed (silent) video unchanged
whenever either input file is missing, ffmpeg raises, or ffmpeg exits
non-zero; compress_video, called with the same path as input and output
as in process_video, falls back to the pre-compression artifact whenever
its input is missing, ffmpeg raises, or ffmpeg exits non-zero. -/
theorem postprocess_soft_fallbacks :
    (∀ (orig proc : MediaPath) (oe pe : Bool) (ff : Except Unit ℤ),
      (oe = false ∨ pe = false ∨ ff = Except.error ()
        ∨ ∃ rc, ff = Except.ok rc ∧ rc ≠ 0) →
      merge_audio oe pe ff orig proc = proc)
  ∧ (∀ (p : MediaPath) (ie : Bool) (ff : Except Unit ℤ),
      (ie = false ∨ ff = Except.error ()
        ∨ ∃ rc, ff = Except.ok rc ∧ rc ≠ 0) →
      compress_video ie ff p p = p) := by
  constructor
  · intro orig proc oe pe ff h
    unfold merge_audio
    rcases h with h | h | h | ⟨rc, hrc, hne⟩
    · subst h
      simp
    · subst h
      cases oe <;> simp
    · subst h
      cases oe <;> cases pe <;> simp
    · subst hrc
      cases oe <;> cases pe <;> simp [hne]
  · intro p ie ff h
    unfold compress_video
    rcases h with h | h | ⟨rc, hrc, hne⟩
    · subst h
      simp
    · subst h
      cases ie <;> simp
    · subst hrc
      cases ie <;> simp [hne]

/-- C9 witness: a missing original file makes merge_audio return the
processed path unchanged. -/
theorem postprocess_soft_fallbacks_witness :
    merge_audio false true (Except.ok 0) MediaPath.source MediaPath.output
      = MediaPath.output :=
  postprocess_soft_fallbacks.1 MediaPath.source MediaPath.output false true
    (Except.ok 0) (Or.inl rfl)

/-! ### C7 and C8: orchestrator outcomes -/

lemma merge_audio_result_cases (oe pe : Bool) (ff : Except Unit ℤ)
    (orig proc : MediaPath) :
    merge_audio oe pe ff orig proc = proc
  ∨ merge_audio oe pe ff orig proc = MediaPath.withAudio proc := by
  unfold merge_audio
  by_cases h1 : oe = false
  · rw [if_pos h1]
    exact Or.inl rfl
  · rw [if_neg h1]
    by_cases h2 : pe = false
    · rw [if_pos h2]
      exact Or.inl rfl
    · rw [if_neg h2]
      cases ff with
      | error e => exact Or.inl rfl
      | ok rc =>
        by_cases h3 : rc ≠ 0
        · exact Or.inl (by simp [h3])
        · push_neg at h3
          subst h3
          exact Or.inr (by norm_num)

/-- C7: when the upload raises, the run result still carries the computed
summary, analyzed-frame count and rounded duration, public_url is absent
and no local file is deleted; when the upload succeeds, public_url
carries the returned reference and exactly one local intermediate
artifact — never the original source — is deleted. -/
theorem upload_outcome (videoPath outputPath : MediaPath) (ri : RunInputs)
    (hfe : ri.fileExists = true) (hco : ri.capOpens = true)
    (hk : ¬(frameInterval (pyOr ri.fps 25) = 0
            ∧ ri.frames.any (fun f => f.validShape) = true))
    (ho1 : outputPath ≠ videoPath)
    (ho2 : MediaPath.withAudio outputPath ≠ videoPath) :
    (ri.post.upload = Except.error () →
      process_video videoPath outputPath ri
        = Except.ok
            (⟨summaryOf (processFrames (frameInterval (pyOr ri.fps 25))
                ri.frames).emotionCounts,
              (processFrames (frameInterval (pyOr ri.fps 25))
                ri.frames).analyzedFrames,
              round2 ri.elapsed, none⟩, []))
  ∧ (∀ url, ri.post.upload = Except.ok url →
      ∃ deleted, process_video videoPath outputPath ri
          = Except.ok
              (⟨summaryOf (processFrames (frameInterval (pyOr ri.fps 25))
                  ri.frames).emotionCounts,
                (processFrames (frameInterval (pyOr ri.fps 25))
                  ri.frames).analyzedFrames,
                round2 ri.elapsed, some url⟩, [deleted])
        ∧ deleted ≠ videoPath) := by
  constructor
  · intro hup
    unfold process_video
    rw [if_neg (by simp [hfe]), if_neg (by simp [hco]), if_neg hk, hup]
  · intro url hup
    refine ⟨merge_audio ri.post.mergeOriginalExists
        ri.post.mergeProcessedExists ri.post.mergeFfmpeg videoPath
        outputPath, ?_, ?_⟩
    · unfold process_video
      rw [if_neg (by simp [hfe]), if_neg (by simp [hco]), if_neg hk, hup]
    · rcases merge_audio_result_cases ri.post.mergeOriginalExists
        ri.post.mergeProcessedExists ri.post.mergeFfmpeg videoPath outputPath
        with hc | hc
      · rw [hc]
        exact ho1
      · rw [hc]
        exact ho2

/-- C7 witness: with a failing upload and an otherwise successful run,
the result has no public url, keeps its statistics, and deletes nothing. -/
theorem upload_outcome_witness :
    process_video MediaPath.source MediaPath.output
        ⟨true, true, 25, [], ⟨true, true, Except.ok 0, true, Except.ok 0,
          Except.error ()⟩, 10⟩
      = Except.ok
          (⟨summaryOf (processFrames (frameInterval (pyOr 25 25))
              ([] : List FrameInput)).emotionCounts,
            (processFrames (frameInterval (pyOr 25 25))
              ([] : List FrameInput)).analyzedFrames,
            round2 10, none⟩, []) :=
  (upload_outcome MediaPath.source MediaPath.output
      ⟨true, true, 25, [], ⟨true, true, Except.ok 0, true, Except.ok 0,
        Except.error ()⟩, 10⟩
      rfl rfl (by intro h; simpa using h.2) (by decide) (by decide)).1 rfl

/-- C8 (amended): a missing source path aborts the run with
FileNotFoundError and an unopenable container aborts with the generic
open failure, in both cases with no run result; when the source opens
and the computed sampling interval is non-zero, every combination of
frame-level and post-processing failures still yields a run result.
(The one further abort, excluded here and shown in the counterexample:
a reported frame rate in (0, 0.5) makes int(fps*2) zero and the first
valid frame raises an uncaught ZeroDivisionError.) -/
theorem fatal_error_policy (videoPath outputPath : MediaPath)
    (ri : RunInputs) :
    (ri.fileExists = false →
      process_video videoPath outputPath ri
        = Except.error FatalError.fileNotFound)
  ∧ (ri.fileExists = true → ri.capOpens = false →
      process_video videoPath outputPath ri
        = Except.error FatalError.cannotOpen)
  ∧ (ri.fileExists = true → ri.capOpens = true →
      frameInterval (pyOr ri.fps 25) ≠ 0 →
      ∃ res, process_video videoPath outputPath ri = Except.ok res) := by
  refine ⟨?_, ?_, ?_⟩
  · intro h
    unfold process_video
    rw [if_pos h]
  · intro h1 h2
    unfold process_video
    rw [if_neg (by simp [h1]), if_pos h2]
  · intro h1 h2 h3
    cases hup : ri.post.upload with
    | ok url =>
      refine ⟨(⟨summaryOf (processFrames (frameInterval (pyOr ri.fps 25))
            ri.frames).emotionCounts,
          (processFrames (frameInterval (pyOr ri.fps 25))
            ri.frames).analyzedFrames,
          round2 ri.elapsed, some url⟩,
        [merge_audio ri.post.mergeOriginalExists
          ri.post.mergeProcessedExists ri.post.mergeFfmpeg
          videoPath outputPath]), ?_⟩
      unfold process_video
      rw [if_neg (by simp [h1]), if_neg (by simp [h2]),
        if_neg (by intro h; exact h3 h.1), hup]
    | error e =>
      refine ⟨(⟨summaryOf (processFrames (frameInterval (pyOr ri.fps 25))
            ri.frames).emotionCounts,
          (processFrames (frameInterval (pyOr ri.fps 25))
            ri.frames).analyzedFrames,
          round2 ri.elapsed, none⟩, []), ?_⟩
      unfold process_video
      rw [if_neg (by simp [h1]), if_neg (by simp [h2]),
        if_neg (by intro h; exact h3 h.1), hup]

/-- C8 witness: a missing source file aborts with FileNotFoundError. -/
theorem fatal_error_policy_witness :
    process_video MediaPath.source MediaPath.output
        ⟨false, true, 25, [], ⟨true, true, Except.ok 0, true, Except.ok 0,
          Except.ok "u"⟩, 10⟩
      = Except.error FatalError.fileNotFound :=
  (fatal_error_policy MediaPath.source MediaPath.output
      ⟨false, true, 25, [], ⟨true, true, Except.ok 0, true, Except.ok 0,
        Except.ok "u"⟩, 10⟩).1 rfl

/-- C8 counterexample: with the source present and opening fine but a
reported frame rate of 0.25, int(0.25 × 2) = 0 and the first valid frame
raises ZeroDivisionError, aborting the run even though the source opened
— so source-open failure is not the only run-aborting error. -/
theorem fatal_zero_division_counterexample :
    process_video MediaPath.source MediaPath.output
        ⟨true, true, 1/4, [⟨true, true, Except.ok []⟩],
          ⟨true, true, Except.ok 0, true, Except.ok 0, Except.ok "u"⟩, 10⟩
      = Except.error FatalError.zeroDivision := by
  have hpy : pyOr (1/4) 25 = 1/4 := by
    unfold pyOr
    rw [if_neg (by norm_num)]
  have hk : frameInterval (pyOr (1/4) 25) = 0 := by
    rw [hpy]
    exact frameInterval_concrete (1/4) 0 (by norm_num)
      (by rw [show (1/4 : ℚ) * 2 = 1/2 by norm_num]; norm_num)
  unfold process_video
  rw [if_neg (by simp), if_neg (by simp), if_pos ⟨hk, by simp⟩]

end EmotionDetection
